import Mathlib

/-!
# Verification of the scat terminal renderer core

Shallow embedding of the diff parser (`src/git.rs`), the line slicing and
blank-line compaction helpers, the unprintable-character transformer
(`src/unprintable.rs`), the decoration composer (`src/decorations.rs`) and the
streaming highlight compositor (`src/main.rs`), together with proofs of the
specified properties.

Rust strings are modelled as `List Char` (Rust `char` = Unicode scalar value =
Lean `Char`); byte buffers are modelled as `List Nat` (one `Nat` per byte).
External collaborators (the tree-sitter highlighter, the terminal renderer, the
resolved theme) are modelled as parameters, exactly as the code consumes them.
-/

set_option maxRecDepth 10000

namespace Scat

/-! ## String helpers mirroring the Rust std functions used by the code -/

/-- Mirrors Rust `str::split(sep)`: splits at every occurrence of `sep`,
always yielding at least one (possibly empty) segment. -/
def splitOnChar (sep : Char) : List Char → List (List Char)
  | [] => [[]]
  | c :: rest =>
    if c = sep then [] :: splitOnChar sep rest
    else
      match splitOnChar sep rest with
      | seg :: segs => (c :: seg) :: segs
      | [] => [[c]]

/-- Mirrors Rust `str::lines`: split on `\n`, drop the trailing empty segment
produced by a final newline, and strip one trailing `\r` from every
`\n`-terminated line (a final line without terminator keeps its `\r`, exactly
as Rust's `lines` behaves). -/
def rustLines (s : List Char) : List (List Char) :=
  if s = [] then []
  else
    let parts := splitOnChar '\n' s
    let terminated :=
      parts.dropLast.map (fun l => if l.getLast? = some '\r' then l.dropLast else l)
    match parts.getLast? with
    | some last => if last = [] then terminated else terminated ++ [last]
    | none => terminated

/-- Worker for `splitWhitespace`, accumulating the current word reversed. -/
def splitWhitespaceGo : List Char → List Char → List (List Char)
  | [], cur => if cur = [] then [] else [cur.reverse]
  | c :: rest, cur =>
    if c.isWhitespace then
      if cur = [] then splitWhitespaceGo rest []
      else cur.reverse :: splitWhitespaceGo rest []
    else splitWhitespaceGo rest (c :: cur)

/-- Mirrors Rust `str::split_whitespace` (on the ASCII whitespace the diff
headers contain): splits on whitespace runs, dropping empty segments. -/
def splitWhitespace (s : List Char) : List (List Char) :=
  splitWhitespaceGo s []

/-- Mirrors Rust `str::strip_prefix(c)`. -/
def stripLeadChar (c : Char) : List Char → Option (List Char)
  | [] => none
  | x :: rest => if x = c then some rest else none

/-- Mirrors Rust `usize::from_str` on the inputs exercised here: an optional
leading `+` sign followed by one or more ASCII digits (overflow is not
modelled). -/
def parseUsize (s : List Char) : Option Nat :=
  let t := match s with
    | '+' :: rest => rest
    | _ => s
  if t = [] then none
  else if t.all (fun c => c.isDigit) then
    some (t.foldl (fun acc c => acc * 10 + (c.toNat - 48)) 0)
  else none

/-! ## src/git.rs : the unified diff parser -/

/-- `LineChange` from src/git.rs: the type of change for a single line. -/
inductive LineChange where
  | Added
  | Modified
  | Removed
deriving DecidableEq, Repr

/-- `DiffHeader` from src/git.rs (the leading underscore of `_old_start` only
silences a dead-code warning in Rust). -/
structure DiffHeader where
  old_start : Nat
  new_start : Nat
deriving DecidableEq, Repr

/-- `parse_diff_header` from src/git.rs: parse "@@ -o,s +n,t @@". -/
def parse_diff_header (line : List Char) : Option DiffHeader := do
  let parts := splitWhitespace line
  if parts.length < 4 then none
  else
    let p1 ← parts[1]?
    let old_part ← stripLeadChar '-' p1
    let old_parts := splitOnChar ',' old_part
    if old_parts.length < 2 then none
    else
      let o0 ← old_parts[0]?
      let old_start ← parseUsize o0
      let p2 ← parts[2]?
      let new_part ← stripLeadChar '+' p2
      let new_parts := splitOnChar ',' new_part
      if new_parts.length < 2 then none
      else
        let n0 ← new_parts[0]?
        let new_start ← parseUsize n0
        some ⟨old_start, new_start⟩

/-- The `changes : HashMap<usize, LineChange>` of `parse_unified_diff`,
modelled as an association list with unique keys. -/
abbrev ChangeAssoc := List (Nat × LineChange)

/-- Key membership test for the change map. -/
def hasKey (m : ChangeAssoc) (k : Nat) : Bool :=
  m.any (fun p => p.1 == k)

/-- Mirrors `HashMap::insert` (overwrites an existing binding). -/
def insertReplace (m : ChangeAssoc) (k : Nat) (v : LineChange) : ChangeAssoc :=
  if hasKey m k then m.map (fun p => if p.1 == k then (k, v) else p)
  else (k, v) :: m

/-- Mirrors `HashMap::entry(k).or_insert(v)` (keeps an existing binding). -/
def insertIfAbsent (m : ChangeAssoc) (k : Nat) (v : LineChange) : ChangeAssoc :=
  if hasKey m k then m else (k, v) :: m

/-- Mirrors `HashMap::get`. -/
def lookupChange (m : ChangeAssoc) (k : Nat) : Option LineChange :=
  (m.find? (fun p => p.1 == k)).map (·.2)

/-- Mirrors `changes.keys().max().unwrap_or(&1)` for a nonempty map (the
`unwrap_or` default is irrelevant: the empty map is handled before). -/
def maxKey (m : ChangeAssoc) : Nat :=
  m.foldl (fun acc p => max acc p.1) 0

/-- The hunk-header branch of the loop: `current_new_line = header.new_start`
on a successful parse, unchanged on a parse failure. -/
def newCursorFromHeader (line : List Char) (current : Nat) : Nat :=
  match parse_diff_header line with
  | some header => header.new_start
  | none => current

/-- The scanning loop of `parse_unified_diff` (src/git.rs lines 55-105), with
the peekable line iterator made explicit: `current_new_line` is the cursor into
the new file, `changes` the classification map built so far.  The Rust
`match line.chars().next()` is rendered as an `if`-chain on `line.head?` (the
line is nonempty in that position, so `head?` is `some` and the chain's final
branch is Rust's `_` arm); a pure removal as the last diff line falls out of
the Rust loop, returning `changes`. -/
def parseLoop : List (List Char) → Nat → ChangeAssoc → ChangeAssoc
  | [], _, changes => changes
  | line :: rest, current_new_line, changes =>
    if line = [] then parseLoop rest current_new_line changes
    else if (['@', '@'] : List Char).isPrefixOf line then
      parseLoop rest (newCursorFromHeader line current_new_line) changes
    else if (['-', '-', '-'] : List Char).isPrefixOf line
        || (['+', '+', '+'] : List Char).isPrefixOf line then
      parseLoop rest current_new_line changes
    else if (['\\'] : List Char).isPrefixOf line then
      parseLoop rest current_new_line changes
    else if line.head? = some ' ' then
      parseLoop rest (current_new_line + 1) changes
    else if line.head? = some '-' then
      match rest with
      | next :: rest2 =>
        if (['+'] : List Char).isPrefixOf next then
          parseLoop rest2 current_new_line
            (insertReplace changes current_new_line LineChange.Modified)
        else parseLoop (next :: rest2) current_new_line changes
      | [] => changes
    else if line.head? = some '+' then
      parseLoop rest (current_new_line + 1)
        (insertIfAbsent changes current_new_line LineChange.Added)
    else parseLoop rest (current_new_line + 1) changes

/-- The HashMap → Vec conversion at the end of `parse_unified_diff`
(src/git.rs lines 107-121): empty map gives an empty vector, else a vector
sized to the maximum classified line number, entry `i` holding the
classification of line `i + 1` (a key of `0` is skipped by the `line_num > 0`
guard, which this indexing reproduces). -/
def finalize (changes : ChangeAssoc) : List (Option LineChange) :=
  if changes = [] then []
  else (List.range (maxKey changes)).map (fun i => lookupChange changes (i + 1))

/-- `parse_unified_diff` from src/git.rs (it always returns `Ok`, so the
`Result` wrapper is dropped). -/
def parse_unified_diff (diff : List Char) : List (Option LineChange) :=
  finalize (parseLoop (rustLines diff) 1 [])

/-- Invariant of the diff parser's change map: no stored value is `Removed`. -/
def GoodAssoc (m : ChangeAssoc) : Prop :=
  ∀ p ∈ m, p.2 ≠ LineChange.Removed

/-! ## src/main.rs : byte-level line slicing and blank-line compaction

Byte buffers are `List Nat`; `10` is `\n`, `13` is `\r`. -/

/-- `LineRange` from src/main.rs: a 1-based inclusive line range (the Rust
field `end` is a Lean keyword and is rendered `stop`). -/
structure LineRange where
  start : Nat
  stop : Nat
deriving DecidableEq, Repr

/-- The scanning loop of `slice_bytes_by_line_range` (src/main.rs lines
1356-1370): `cur` holds the bytes of the current, not yet terminated, line
(`bytes[start..index]` in the Rust), `line_no` its 1-based number.  On a
newline the whole line, terminator included, is copied iff `line_no` is in
range, and the scan returns early once the line counter passes `range.stop`;
at end of input a final unterminated nonempty line is copied iff in range. -/
def sliceGo (r : LineRange) : List Nat → Nat → List Nat → List Nat
  | [], line_no, cur =>
    if cur ≠ [] ∧ r.start ≤ line_no ∧ line_no ≤ r.stop then cur else []
  | b :: rest, line_no, cur =>
    if b = 10 then
      (if r.start ≤ line_no ∧ line_no ≤ r.stop then cur ++ [10] else [])
        ++ (if r.stop < line_no + 1 then [] else sliceGo r rest (line_no + 1) [])
    else sliceGo r rest line_no (cur ++ [b])

/-- `slice_bytes_by_line_range` from src/main.rs (lines 1351-1375). -/
def slice_bytes_by_line_range (bytes : List Nat) (range : LineRange) : List Nat :=
  if bytes = [] then [] else sliceGo range bytes 1 []

/-- The blankness test of `squeeze_blank_lines_bytes` on the content bytes of
one line (the bytes strictly before the `\n`): `content_end` backs over one
trailing CR, and the line is blank iff nothing remains. -/
def isBlankContent (cur : List Nat) : Bool :=
  (if cur ≠ [] ∧ cur.getLast? = some 13 then cur.length - 1 else cur.length) = 0

/-- The scanning loop of `squeeze_blank_lines_bytes` (src/main.rs lines
1224-1259): `blank_count` counts the current run of blank lines, `cur` the
bytes of the current line.  A blank line is emitted only while
`blank_count + 1 ≤ limit`; a non-blank line resets the counter and is always
emitted; the final unterminated line is treated the same way (without the
reset, which the Rust code omits there because the loop ends). -/
def squeezeGo (limit : Nat) : List Nat → Nat → List Nat → List Nat
  | [], blank_count, cur =>
    if cur = [] then []
    else if isBlankContent cur then
      if blank_count + 1 ≤ limit then cur else []
    else cur
  | b :: rest, blank_count, cur =>
    if b = 10 then
      if isBlankContent cur then
        (if blank_count + 1 ≤ limit then cur ++ [10] else [])
          ++ squeezeGo limit rest (blank_count + 1) []
      else (cur ++ [10]) ++ squeezeGo limit rest 0 []
    else squeezeGo limit rest blank_count (cur ++ [b])

/-- `squeeze_blank_lines_bytes` from src/main.rs (lines 1217-1261). -/
def squeeze_blank_lines_bytes (bytes : List Nat) (limit : Nat) : List Nat :=
  if bytes = [] then [] else squeezeGo limit bytes 0 []

/-! ### Reference notions: line decomposition of a byte buffer -/

/-- Reference decomposition of a byte buffer into lines: terminators are
kept, a final unterminated nonempty segment is a line of its own.  `cur`
accumulates the current line. -/
def splitLinesGo : List Nat → List Nat → List (List Nat)
  | [], cur => if cur = [] then [] else [cur]
  | b :: rest, cur =>
    if b = 10 then (cur ++ [10]) :: splitLinesGo rest []
    else splitLinesGo rest (cur ++ [b])

/-- The lines of a byte buffer (terminators kept). -/
def linesOf (bytes : List Nat) : List (List Nat) :=
  splitLinesGo bytes []

/-- Concatenation of exactly those lines whose 1-based numbers (the first
list element being line `n`) lie inside `r` — the reference meaning of
"the bytes belonging to lines `r.start ..= r.stop`". -/
def joinInRange (r : LineRange) : List (List Nat) → Nat → List Nat
  | [], _ => []
  | l :: ls, n =>
    (if r.start ≤ n ∧ n ≤ r.stop then l else []) ++ joinInRange r ls (n + 1)

/-- Blankness of a full line (terminator included): its content — the bytes
before the `\n`, or the whole line if unterminated — is blank. -/
def isBlankLine (l : List Nat) : Bool :=
  isBlankContent (if l.getLast? = some 10 then l.dropLast else l)

/-- Per-line form of the squeeze loop: the sublist of lines that
`squeeze_blank_lines_bytes` emits, starting amid a run of `blank_count`
already-counted blank lines. -/
def squeezeLinesL (limit : Nat) : List (List Nat) → Nat → List (List Nat)
  | [], _ => []
  | l :: ls, blank_count =>
    if isBlankLine l then
      (if blank_count + 1 ≤ limit then [l] else [])
        ++ squeezeLinesL limit ls (blank_count + 1)
    else l :: squeezeLinesL limit ls 0

/-- `blankRunsAtMost limit ls blank_count` holds when, continuing a run of
`blank_count` blank lines, no run of consecutive blank lines in `ls` ever
exceeds `limit`. -/
def blankRunsAtMost (limit : Nat) : List (List Nat) → Nat → Bool
  | [], _ => true
  | l :: ls, blank_count =>
    if isBlankLine l then
      decide (blank_count + 1 ≤ limit) && blankRunsAtMost limit ls (blank_count + 1)
    else blankRunsAtMost limit ls 0

/-- Wellformed line lists, as produced by `linesOf`: every line but the last
is a newline-free body plus the terminator, and the last line is either of
that shape or a nonempty newline-free final fragment. -/
inductive WFLines : List (List Nat) → Prop where
  | nil : WFLines []
  | last (l : List Nat) : l ≠ [] → 10 ∉ l → WFLines [l]
  | cons (body : List Nat) (ls : List (List Nat)) :
      10 ∉ body → WFLines ls → WFLines ((body ++ [10]) :: ls)

/-! ## src/unprintable.rs : the unprintable-character transformer -/

/-- `CharStyle` from src/unprintable.rs: Unicode symbols or caret notation. -/
inductive CharStyle where
  | Unicode
  | Caret
deriving DecidableEq, Repr

/-- Rust `char::is_control`: the C0 range U+0000-U+001F and the DEL/C1 range
U+007F-U+009F. -/
def isControl (c : Char) : Bool :=
  c.toNat ≤ 0x1F || (0x7F ≤ c.toNat && c.toNat ≤ 0x9F)

/-- The per-character mapping of `show_unprintable` (src/unprintable.rs lines
45-136), one `if` per match arm in source order; the zero-width arms push the
same bracketed tag in both modes, so the Rust `if` there is collapsed.  The
Rust `char::from_u32(c as u32 + 0x2400)` always succeeds on this range, and
`Char.ofNat` renders it. -/
def showChar (c : Char) (style : CharStyle) : List Char :=
  if c = ' ' then ['·']
  else if c = '\t' then (if style = CharStyle.Unicode then ['→'] else ['^', 'I'])
  else if c = '\n' then (if style = CharStyle.Unicode then ['␊', '\n'] else ['$', '\n'])
  else if c = '\r' then (if style = CharStyle.Unicode then ['↵'] else ['^', 'M'])
  else if c = '\x1b' then (if style = CharStyle.Unicode then ['␛'] else ['^', '['])
  else if c = '\x00' then (if style = CharStyle.Unicode then ['␀'] else ['^', '@'])
  else if isControl c ∧ c.toNat ≤ 0x1F then
    (if style = CharStyle.Unicode then [Char.ofNat (c.toNat + 0x2400)]
     else ['^', Char.ofNat (c.toNat + 0x40)])
  else if c = '\x7f' then (if style = CharStyle.Unicode then ['␡'] else ['^', '?'])
  else if c = Char.ofNat 0x200B then "[ZWSP]".data
  else if c = Char.ofNat 0x200C then "[ZWNJ]".data
  else if c = Char.ofNat 0x200D then "[ZWJ]".data
  else if c = Char.ofNat 0xFEFF then "[BOM]".data
  else [c]

/-- `show_unprintable` from src/unprintable.rs: transform every character of
the text in order, concatenating the per-character renderings. -/
def show_unprintable (text : List Char) (style : CharStyle) : List Char :=
  match text with
  | [] => []
  | c :: rest => showChar c style ++ show_unprintable rest style

/-! ## src/main.rs and src/decorations.rs : the streaming highlight compositor

External collaborators are modelled as parameters, exactly as the code
consumes them: syntastica's `TerminalRenderer` as a record of the methods the
code calls, the `ResolvedTheme` as its two lookups, `THEME_KEYS` as a list,
the highlight event stream as the list of `Result` items the iterator yields,
and `get_char_style()` (environment detection) as an explicit `CharStyle`.
Buffers are `List Char`; the sink write is infallible here (Io errors are out
of scope), so only the `Highlight` error of `StreamHighlightError` remains,
rendered as `Except Unit`. -/

/-- Visual styles as the code distinguishes them: a value obtained from the
external theme (opaque token), or a fixed RGB style built with
`Style::new(Color::new(r,g,b), None, false, false, false, false)` (the four
`false` flags and absent background are identical in every such call in the
code, so only the RGB triple is carried). -/
inductive Style where
  | themed (tok : Nat)
  | rgb (r g b : Nat)
deriving DecidableEq, Repr

/-- The two lookups the code performs on syntastica's `ResolvedTheme`. -/
structure ResolvedTheme where
  get : String → Option Style
  find_style : String → Option Style

/-- The methods the code calls on syntastica's `TerminalRenderer`. -/
structure TerminalRenderer where
  head : List Char
  tail : List Char
  newline : List Char
  escape : List Char → List Char
  styled : List Char → Style → List Char
  unstyled : List Char → List Char

/-- `HighlightEvent` from syntastica_highlight as consumed by the code; the
`Source` offsets address the text (in this model, by character). -/
inductive HighlightEvent where
  | HighlightStart (highlight : Nat)
  | HighlightEnd
  | Source (start stop : Nat)
deriving DecidableEq, Repr

/-- `STREAM_OUTPUT_BUFFER_BYTES` from src/main.rs line 26. -/
def STREAM_OUTPUT_BUFFER_BYTES : Nat := 64 * 1024

/-- `STREAM_OUTPUT_FLUSH_BYTES` from src/main.rs line 27. -/
def STREAM_OUTPUT_FLUSH_BYTES : Nat := 8 * 1024

/-- Rust `String::len` (UTF-8 byte count) on a character-list buffer. -/
def utf8Len (s : List Char) : Nat :=
  (s.map (fun c => c.utf8Size)).sum

/-- `StreamBuffer` from src/main.rs (lines 248-291): the accumulating string
plus, in place of the borrowed `&mut W` sink, the bytes already flushed to
it. -/
structure StreamBuffer where
  flushed : List Char
  buf : List Char
deriving DecidableEq, Repr

/-- `StreamBuffer::len`. -/
def StreamBuffer.len (b : StreamBuffer) : Nat := utf8Len b.buf

/-- `StreamBuffer::flush`: move the accumulator to the sink. -/
def StreamBuffer.flush (b : StreamBuffer) : StreamBuffer :=
  if b.buf = [] then b else { flushed := b.flushed ++ b.buf, buf := [] }

/-- `StreamBuffer::flush_if_full`. -/
def StreamBuffer.flush_if_full (b : StreamBuffer) : StreamBuffer :=
  if STREAM_OUTPUT_BUFFER_BYTES ≤ b.len then b.flush else b

/-- `StreamBuffer::flush_if_at_least`. -/
def StreamBuffer.flush_if_at_least (b : StreamBuffer) (bytes : Nat) : StreamBuffer :=
  if bytes ≤ b.len then b.flush else b

/-- `StreamBuffer::push`. -/
def StreamBuffer.push (b : StreamBuffer) (s : List Char) : StreamBuffer :=
  StreamBuffer.flush_if_full { b with buf := b.buf ++ s }

/-- `current_style_key` from src/main.rs (lines 808-813); `THEME_KEYS` is the
parameter `themeKeys`. -/
def current_style_key (themeKeys : List String) (style_stack : List Nat) : Option String :=
  (style_stack.getLast?.bind (fun idx => themeKeys[idx]?)).bind
    (fun key => if key ≠ "none" then some key else none)

/-- `highlight_line_count` from src/main.rs: newline count plus one. -/
def highlight_line_count (text : List Char) : Nat :=
  (text.filter (fun c => c = '\n')).length + 1

/-- `line_number_width` from src/main.rs (lines 1179-1182). -/
def line_number_width (line_count : Nat) : Nat :=
  let width := (toString line_count).length
  if width = 0 then 1 else width

/-- Decimal rendering of a number, as `format!` prints a `usize`. -/
def natLit (n : Nat) : List Char := (toString n).data

/-- Right alignment to a column width, mirroring `format!("{:>width$}", n)`. -/
def padLeft (s : List Char) (width : Nat) : List Char :=
  List.replicate (width - s.length) ' ' ++ s

/-- `count_lines_bytes` from src/main.rs (lines 1167-1177), on the character
buffer (a `\n` byte in UTF-8 is exactly the `\n` character). -/
def count_lines_bytes (bytes : List Char) : Nat :=
  if bytes = [] then 0
  else
    let count := (bytes.filter (fun c => c = '\n')).length
    if bytes.getLast? = some '\n' then count else count + 1

/-- Worker for `splitInclusiveNL`. -/
def splitInclusiveGo : List Char → List Char → List (List Char)
  | [], cur => if cur = [] then [] else [cur]
  | c :: rest, cur =>
    if c = '\n' then (cur ++ ['\n']) :: splitInclusiveGo rest []
    else splitInclusiveGo rest (cur ++ [c])

/-- Mirrors Rust `str::split_inclusive('\n')`: segments keep their newline,
an empty input yields no segments, a final unterminated segment is kept. -/
def splitInclusiveNL (s : List Char) : List (List Char) :=
  splitInclusiveGo s []

/-- The rendering loop of `number_plain_text` over the inclusive chunks. -/
def numberChunks (show_all : Bool) (charStyle : CharStyle) (width : Nat) :
    List (List Char) → Nat → List Char
  | [], _ => []
  | chunk :: rest, line_no =>
    (padLeft (natLit line_no) width ++ [' ', ' ']
        ++ (if show_all then show_unprintable chunk charStyle else chunk))
      ++ numberChunks show_all charStyle width rest (line_no + 1)

/-- `number_plain_text` from src/main.rs (lines 1114-1136): the fallback
plain renderer with line numbers; `charStyle` stands for the environment
lookup `get_char_style()`. -/
def number_plain_text (text : List Char) (line_number_start : Nat) (show_all : Bool)
    (charStyle : CharStyle) : List Char :=
  let line_count := count_lines_bytes text
  if line_count = 0 then []
  else
    let last_line_no := line_number_start + (line_count - 1)
    let width := line_number_width last_line_no
    numberChunks show_all charStyle width (splitInclusiveNL text) line_number_start

/-- `DecorationConfig` from src/decorations.rs. -/
structure DecorationConfig where
  show_numbers : Bool
  show_changes : Bool
deriving DecidableEq, Repr

/-- `DecorationConfig::has_decorations`. -/
def DecorationConfig.has_decorations (c : DecorationConfig) : Bool :=
  c.show_numbers || c.show_changes

/-- `get_dim_style_or_create` from src/decorations.rs (lines 29-35). -/
def get_dim_style_or_create (theme : ResolvedTheme) : Style :=
  (((theme.find_style "comment").orElse (fun _ => theme.find_style "punctuation")).orElse
      (fun _ => theme.find_style "ui.text")).getD (Style.rgb 100 100 100)

/-- `get_git_change_style` from src/decorations.rs (lines 38-44). -/
def get_git_change_style (line_change : LineChange) : Style :=
  match line_change with
  | LineChange.Removed => Style.rgb 255 100 100
  | LineChange.Modified => Style.rgb 255 200 100
  | LineChange.Added => Style.rgb 150 255 150

/-- `render_decorated_line` from src/decorations.rs (lines 59-121): the
string accumulation is rendered as the concatenation of its conditional
segments, in source order (the Rust parameter `line_number_width` is named
`width` here to avoid shadowing the function of that name). -/
def render_decorated_line (content : List (List Char × Option String)) (line_no : Nat)
    (config : DecorationConfig) (line_change : Option LineChange)
    (r : TerminalRenderer) (theme : ResolvedTheme) (width : Nat) : List Char :=
  let dim_style := get_dim_style_or_create theme
  (if config.show_numbers then
      r.styled (r.escape (padLeft (natLit line_no) width)) dim_style
    else [])
  ++ (if config.show_changes then
        r.styled (r.escape [' ']) dim_style
        ++ (let sym :=
              match line_change with
              | some LineChange.Added => ('+', get_git_change_style LineChange.Added)
              | some LineChange.Modified => ('~', get_git_change_style LineChange.Modified)
              | some LineChange.Removed => ('-', get_git_change_style LineChange.Removed)
              | none => (' ', dim_style)
            r.styled (r.escape [sym.1]) sym.2)
      else [])
  ++ (if config.show_numbers || config.show_changes then
        r.styled (r.escape [' ']) dim_style
      else [])
  ++ (if config.has_decorations then r.styled (r.escape "│ ".data) dim_style else [])
  ++ (content.map (fun tc =>
        match tc.2.bind (fun key => theme.find_style key) with
        | some style => r.styled (r.escape tc.1) style
        | none => r.unstyled (r.escape tc.1))).flatten

/-- The parameters shared by both streaming loops: renderer, theme-key
table, theme, `show_all`, the environment's character style, and the text the
`Source` events address. -/
structure StreamEnv where
  r : TerminalRenderer
  themeKeys : List String
  theme : ResolvedTheme
  show_all : Bool
  charStyle : CharStyle
  text : List Char

/-- The `lf_marker` binding of both streaming writers. -/
def lf_marker (charStyle : CharStyle) : List Char :=
  if charStyle = CharStyle.Unicode then ['␊'] else ['$']

/-- `&text[start..end]` for a `Source` event. -/
def sourceSlice (text : List Char) (start stop : Nat) : List Char :=
  (text.take stop).drop start

/-- The loop state of `write_highlight_iter_plain` (src/main.rs lines
884-886 plus the output buffer). -/
structure PlainState where
  style_stack : List Nat
  line_has_content : Bool
  flushed_visible_output : Bool
  out : StreamBuffer

/-- One sub-line of the plain writer's inner loop (src/main.rs lines
900-929): record content, render the fragment through the current style, and
apply the pre-first-flush capacity check. -/
def plainLineStep (env : StreamEnv) (line : List Char) (st : PlainState) : PlainState :=
  let st := if line ≠ [] then { st with line_has_content := true } else st
  let style_key := current_style_key env.themeKeys st.style_stack
  let out :=
    if env.show_all then
      let transformed := show_unprintable line env.charStyle
      match style_key.bind (fun key => env.theme.get key) with
      | some style_obj => st.out.push (env.r.styled transformed style_obj)
      | none => st.out.push transformed
    else
      let escaped := env.r.escape line
      match style_key.bind (fun key => env.theme.find_style key) with
      | some style => st.out.push (env.r.styled escaped style)
      | none => st.out.push (env.r.unstyled escaped)
  if ¬ st.flushed_visible_output ∧ STREAM_OUTPUT_FLUSH_BYTES ≤ out.len then
    { st with out := out.flush, flushed_visible_output := true }
  else { st with out := out }

/-- The `newline_after` block of the plain writer (src/main.rs lines
931-944): optional line-feed marker, the renderer newline, then the
first-output latency flush or the steady-state low-water flush. -/
def plainNewlineStep (env : StreamEnv) (st : PlainState) : PlainState :=
  let out :=
    if env.show_all ∧ st.line_has_content then st.out.push (lf_marker env.charStyle)
    else st.out
  let out := out.push env.r.newline
  let st :=
    if ¬ st.flushed_visible_output then
      { st with out := out.flush, flushed_visible_output := true }
    else { st with out := out.flush_if_at_least STREAM_OUTPUT_FLUSH_BYTES }
  { st with line_has_content := false }

/-- The plain writer's walk over the sub-lines of one `Source` span;
`newline_after` holds when another sub-line follows or the span ends in a
newline. -/
def plainLines (env : StreamEnv) (ends_with_newline : Bool) :
    List (List Char) → PlainState → PlainState
  | [], st => st
  | line :: rest, st =>
    let st := plainLineStep env line st
    let newline_after := rest ≠ [] || ends_with_newline
    let st := if newline_after then plainNewlineStep env st else st
    plainLines env ends_with_newline rest st

/-- The event loop of `write_highlight_iter_plain` (src/main.rs lines
888-948): push on `HighlightStart`, pop on `HighlightEnd` (`Vec::pop` on an
empty stack is a no-op, rendered by `dropLast`), walk sub-lines on `Source`;
an error item aborts with the state as it stands. -/
def plainLoop (env : StreamEnv) :
    List (Except Unit HighlightEvent) → PlainState → Except Unit Unit × PlainState
  | [], st => (Except.ok (), st)
  | item :: rest, st =>
    match item with
    | Except.error _ => (Except.error (), st)
    | Except.ok ev =>
      match ev with
      | HighlightEvent.HighlightStart highlight =>
        plainLoop env rest { st with style_stack := st.style_stack ++ [highlight] }
      | HighlightEvent.HighlightEnd =>
        plainLoop env rest { st with style_stack := st.style_stack.dropLast }
      | HighlightEvent.Source start stop =>
        let source := sourceSlice env.text start stop
        let ends_with_newline := source.getLast? = some '\n'
        plainLoop env rest (plainLines env ends_with_newline (rustLines source) st)

/-- `write_highlight_iter_plain` from src/main.rs (lines 865-957), returning
the outcome together with everything that reached the sink: the renderer head
is pushed and flushed first; on success the trailing marker, tail and final
flush run; on an error the function returns early by `?` and the unflushed
accumulator is dropped with the `StreamBuffer`. -/
def write_highlight_iter_plain (env : StreamEnv)
    (events : List (Except Unit HighlightEvent)) : Except Unit Unit × List Char :=
  let out := StreamBuffer.flush (StreamBuffer.push ⟨[], []⟩ env.r.head)
  match plainLoop env events ⟨[], false, false, out⟩ with
  | (Except.ok _, st) =>
    let out :=
      if env.show_all ∧ st.line_has_content then st.out.push (lf_marker env.charStyle)
      else st.out
    let out := out.push env.r.tail
    let out := out.flush
    (Except.ok (), out.flushed)
  | (Except.error e, st) => (Except.error e, st.out.flushed)

/-- The effective-config computation at the head of
`write_highlight_iter_with_decorations` (src/main.rs lines 972-981): the git
margin is kept only when the change map holds at least one actual change. -/
def effectiveConfig (decoration_config : DecorationConfig)
    (git_changes : List (Option LineChange)) : DecorationConfig :=
  if git_changes.any (fun c => c.isSome) then decoration_config
  else { decoration_config with show_changes := false }

/-- The loop state of `write_highlight_iter_with_decorations` (src/main.rs
lines 999-1004 plus the output buffer). -/
structure DecorState where
  style_stack : List Nat
  line_no : Nat
  line_index : Nat
  line_has_content : Bool
  line_content : List (List Char × Option String)
  flushed_visible_output : Bool
  out : StreamBuffer

/-- One sub-line of the decorated writer's inner loop (src/main.rs lines
1018-1029): record content and accumulate the (fragment, style-key) pair. -/
def decorLineStep (env : StreamEnv) (line : List Char) (st : DecorState) : DecorState :=
  let st := if line ≠ [] then { st with line_has_content := true } else st
  let style_key := current_style_key env.themeKeys st.style_stack
  let piece := if env.show_all then show_unprintable line env.charStyle else line
  { st with line_content := st.line_content ++ [(piece, style_key)] }

/-- The `newline_after` block of the decorated writer (src/main.rs lines
1031-1061): compose the accumulated line via `render_decorated_line` with
this line's change classification, emit marker and newline, flush per policy,
and advance the line counters. -/
def decorNewlineStep (env : StreamEnv) (effective_config : DecorationConfig)
    (git_changes : List (Option LineChange)) (width : Nat) (st : DecorState) : DecorState :=
  let line_change := (git_changes[st.line_index]?).bind id
  let rendered := render_decorated_line st.line_content st.line_no effective_config
    line_change env.r env.theme width
  let out := st.out.push rendered
  let out :=
    if env.show_all ∧ st.line_has_content then out.push (lf_marker env.charStyle)
    else out
  let out := out.push env.r.newline
  let st :=
    if ¬ st.flushed_visible_output then
      { st with out := out.flush, flushed_visible_output := true }
    else { st with out := out.flush_if_at_least STREAM_OUTPUT_FLUSH_BYTES }
  { st with
    line_content := [], line_has_content := false,
    line_no := st.line_no + 1, line_index := st.line_index + 1 }

/-- The decorated writer's walk over the sub-lines of one `Source` span. -/
def decorLines (env : StreamEnv) (effective_config : DecorationConfig)
    (git_changes : List (Option LineChange)) (width : Nat) (ends_with_newline : Bool) :
    List (List Char) → DecorState → DecorState
  | [], st => st
  | line :: rest, st =>
    let st := decorLineStep env line st
    let newline_after := rest ≠ [] || ends_with_newline
    let st :=
      if newline_after then decorNewlineStep env effective_config git_changes width st
      else st
    decorLines env effective_config git_changes width ends_with_newline rest st

/-- The event loop of `write_highlight_iter_with_decorations` (src/main.rs
lines 1006-1065), with the same scope-stack discipline as the plain loop. -/
def decorLoop (env : StreamEnv) (effective_config : DecorationConfig)
    (git_changes : List (Option LineChange)) (width : Nat) :
    List (Except Unit HighlightEvent) → DecorState → Except Unit Unit × DecorState
  | [], st => (Except.ok (), st)
  | item :: rest, st =>
    match item with
    | Except.error _ => (Except.error (), st)
    | Except.ok ev =>
      match ev with
      | HighlightEvent.HighlightStart highlight =>
        decorLoop env effective_config git_changes width rest
          { st with style_stack := st.style_stack ++ [highlight] }
      | HighlightEvent.HighlightEnd =>
        decorLoop env effective_config git_changes width rest
          { st with style_stack := st.style_stack.dropLast }
      | HighlightEvent.Source start stop =>
        let source := sourceSlice env.text start stop
        let ends_with_newline := source.getLast? = some '\n'
        decorLoop env effective_config git_changes width rest
          (decorLines env effective_config git_changes width ends_with_newline
            (rustLines source) st)

/-- `write_highlight_iter_with_decorations` from src/main.rs (lines
959-1086): effective config, line-number width from
`start + line_count - 1`, head flush, the event loop, and — on success — the
final-line flush (even when empty) before the tail. -/
def write_highlight_iter_with_decorations (env : StreamEnv)
    (decoration_config : DecorationConfig) (line_number_start : Nat)
    (git_changes : List (Option LineChange))
    (events : List (Except Unit HighlightEvent)) : Except Unit Unit × List Char :=
  let effective_config := effectiveConfig decoration_config git_changes
  let line_count := highlight_line_count env.text
  let last_line_no := line_number_start + (line_count - 1)
  let width := line_number_width last_line_no
  let out := StreamBuffer.flush (StreamBuffer.push ⟨[], []⟩ env.r.head)
  match decorLoop env effective_config git_changes width events
      ⟨[], line_number_start, 0, false, [], false, out⟩ with
  | (Except.ok _, st) =>
    let line_change := (git_changes[st.line_index]?).bind id
    let rendered := render_decorated_line st.line_content st.line_no effective_config
      line_change env.r env.theme width
    let out := st.out.push rendered
    let out :=
      if env.show_all ∧ st.line_has_content then out.push (lf_marker env.charStyle)
      else out
    let out := out.push env.r.tail
    let out := out.flush
    (Except.ok (), out.flushed)
  | (Except.error e, st) => (Except.error e, st.out.flushed)

/-- `write_highlighted_text_stream` from src/main.rs (lines 724-806): the
language-config resolution and the `highlighter.highlight` call are external,
so their outcome is the parameter `highlightResult` — a highlight error, or
the items the event iterator will yield; the writer is then chosen by
`has_decorations`. -/
def write_highlighted_text_stream (env : StreamEnv)
    (decoration_config : DecorationConfig) (line_number_start : Nat)
    (git_changes : List (Option LineChange))
    (highlightResult : Except Unit (List (Except Unit HighlightEvent))) :
    Except Unit Unit × List Char :=
  match highlightResult with
  | Except.error _ => (Except.error (), [])
  | Except.ok events =>
    if decoration_config.has_decorations then
      write_highlight_iter_with_decorations env decoration_config line_number_start
        git_changes events
    else write_highlight_iter_plain env events

/-- The plain fallback rendering of the whole text that `write_rendered_text`
computes both for the no-language case and after a highlight error
(src/main.rs lines 688-694 and 710-716). -/
def fallbackRender (env : StreamEnv) (decoration_config : DecorationConfig)
    (line_number_start : Nat) : List Char :=
  if decoration_config.show_numbers then
    number_plain_text env.text line_number_start env.show_all env.charStyle
  else if env.show_all then show_unprintable env.text env.charStyle
  else env.text

/-- `write_rendered_text` from src/main.rs (lines 675-722), returning the
total byte stream written to `stdout`: without a language the fallback alone;
with one, the streamed output, followed — if the streaming path failed with a
highlight error — by a fallback rendering of the whole text (Io errors are
not modelled). -/
def write_rendered_text (env : StreamEnv) (language : Option Unit)
    (decoration_config : DecorationConfig) (line_number_start : Nat)
    (git_changes : List (Option LineChange))
    (highlightResult : Except Unit (List (Except Unit HighlightEvent))) : List Char :=
  match language with
  | none => fallbackRender env decoration_config line_number_start
  | some _ =>
    match write_highlighted_text_stream env decoration_config line_number_start
        git_changes highlightResult with
    | (Except.ok _, flushed) => flushed
    | (Except.error _, flushed) => flushed ++ fallbackRender env decoration_config line_number_start

/-! ### Concrete instantiations of the external collaborators, for witnesses
and counterexamples -/

/-- A concrete renderer: no escape sequences, styling returns the text
unchanged, empty head and tail, `\n` newline. -/
def plainRenderer : TerminalRenderer :=
  { head := [], tail := [], newline := ['\n'], escape := id,
    styled := fun s _ => s, unstyled := id }

/-- A theme with no entries. -/
def emptyTheme : ResolvedTheme :=
  { get := fun _ => none, find_style := fun _ => none }

/-- A concrete environment over `plainRenderer` and `emptyTheme`. -/
def sampleEnv (text : List Char) : StreamEnv :=
  { r := plainRenderer, themeKeys := [], theme := emptyTheme, show_all := false,
    charStyle := CharStyle.Unicode, text := text }

/-- The published change-marker table: `+` for Added, `~` for Modified, `-`
for Removed, a blank space for no change. -/
def markerChar : Option LineChange → Char
  | some LineChange.Added => '+'
  | some LineChange.Modified => '~'
  | some LineChange.Removed => '-'
  | none => ' '

/-- The style attached to the marker: the change style, or the dim style for
the blank marker. -/
def markerStyle (theme : ResolvedTheme) : Option LineChange → Style
  | some c => get_git_change_style c
  | none => get_dim_style_or_create theme

/-- The content segment of a decorated line: each fragment styled through
`find_style` when its key resolves, else unstyled. -/
def contentSeg (r : TerminalRenderer) (theme : ResolvedTheme)
    (content : List (List Char × Option String)) : List Char :=
  (content.map (fun tc =>
    match tc.2.bind (fun key => theme.find_style key) with
    | some style => r.styled (r.escape tc.1) style
    | none => r.unstyled (r.escape tc.1))).flatten

/-! ## Supporting lemmas for the diff parser -/

lemma isPrefixOf_head {a : Char} {xs l : List Char}
    (h : (a :: xs).isPrefixOf l = true) : l.head? = some a := by
  cases l with
  | nil => simp [List.isPrefixOf] at h
  | cons b bs =>
    simp only [List.isPrefixOf, Bool.and_eq_true, beq_iff_eq] at h
    simp [h.1]

lemma parseLoop_no_plus (lines : List (List Char)) (cur : Nat) (changes : ChangeAssoc)
    (h : ∀ l ∈ lines, l.head? ≠ some '+') :
    parseLoop lines cur changes = changes := by
  induction lines, cur, changes using parseLoop.induct with
  | _ =>
    first
    | rfl
    | (rw [parseLoop.eq_def]; simp_all; done)
    | (rename_i hplus ih
       exact absurd (isPrefixOf_head hplus) (by simp_all))

lemma parseLoop_pure_removal_step (line next : List Char) (rest : List (List Char))
    (cur : Nat) (changes : ChangeAssoc)
    (hminus : line.head? = some '-')
    (hmeta : (['-', '-', '-'] : List Char).isPrefixOf line = false)
    (hnext : (['+'] : List Char).isPrefixOf next = false) :
    parseLoop (line :: next :: rest) cur changes = parseLoop (next :: rest) cur changes := by
  obtain ⟨t, rfl⟩ : ∃ t, line = '-' :: t := by
    cases line with
    | nil => simp at hminus
    | cons a t =>
      simp only [List.head?_cons, Option.some.injEq] at hminus
      exact ⟨t, by rw [hminus]⟩
  rw [parseLoop.eq_def]
  simp_all [List.isPrefixOf]

lemma goodAssoc_insertReplace {m : ChangeAssoc} {k : Nat} {v : LineChange}
    (hm : GoodAssoc m) (hv : v ≠ LineChange.Removed) :
    GoodAssoc (insertReplace m k v) := by
  intro p hp
  unfold insertReplace at hp
  split at hp
  · obtain ⟨q, hq, hpq⟩ := List.mem_map.mp hp
    by_cases hqk : (q.1 == k) = true
    · rw [if_pos hqk] at hpq; subst hpq; exact hv
    · rw [if_neg hqk] at hpq; subst hpq; exact hm q hq
  · rcases List.mem_cons.mp hp with h | h
    · subst h; exact hv
    · exact hm p h

lemma goodAssoc_insertIfAbsent {m : ChangeAssoc} {k : Nat} {v : LineChange}
    (hm : GoodAssoc m) (hv : v ≠ LineChange.Removed) :
    GoodAssoc (insertIfAbsent m k v) := by
  intro p hp
  unfold insertIfAbsent at hp
  split at hp
  · exact hm p hp
  · rcases List.mem_cons.mp hp with h | h
    · subst h; exact hv
    · exact hm p h

lemma parseLoop_good (lines : List (List Char)) (cur : Nat) (m : ChangeAssoc)
    (hg : GoodAssoc m) : GoodAssoc (parseLoop lines cur m) := by
  induction lines, cur, m using parseLoop.induct
  all_goals
    first
    | exact hg
    | (rw [parseLoop.eq_def]; simp_all; done)
    | (rw [parseLoop.eq_def]
       simp_all
       first
       | (rename_i ih; exact ih (goodAssoc_insertReplace hg (by decide)))
       | (rename_i ih; exact ih (goodAssoc_insertIfAbsent hg (by decide))))

lemma lookupChange_good (m : ChangeAssoc) (hg : GoodAssoc m) (k : Nat) :
    lookupChange m k ≠ some LineChange.Removed := by
  intro h
  unfold lookupChange at h
  cases hfind : m.find? (fun p => p.1 == k) with
  | none => rw [hfind] at h; simp at h
  | some p =>
    rw [hfind] at h
    simp at h
    exact hg p (List.mem_of_find?_eq_some hfind) h

/-! ## Claim C1 -/

/-- C1 counterexample: on the diff `"@@ -3,2 +3,3 @@\n-old\n+new1\n+new2\n"`
the parser classifies line 3 as `Modified` and stops there — the change map
has length 3, so line 4 is **not** classified `Added` as the claim states
(`-old`/`+new1` become `Modified` at the un-advanced cursor 3, and `+new2`
then hits the already-classified slot 3, where first-classification wins,
before the cursor moves to 4). -/
theorem C1_counterexample :
    parse_unified_diff "@@ -3,2 +3,3 @@\n-old\n+new1\n+new2\n".data
      = [none, none, some LineChange.Modified]
    ∧ (parse_unified_diff "@@ -3,2 +3,3 @@\n-old\n+new1\n+new2\n".data)[3]?
        ≠ some (some LineChange.Added) := ⟨rfl, by decide⟩

/-- C1 (amended): for the diff text `"@@ -3,2 +3,3 @@\n-old\n+new1\n+new2\n"`,
`parse_unified_diff` returns a change map classifying line 3 as `Modified`
and nothing else: the map is `[none, none, some Modified]`, with no entry for
line 4 or for any line past the recorded maximum. -/
theorem C1_theorem :
    parse_unified_diff "@@ -3,2 +3,3 @@\n-old\n+new1\n+new2\n".data
      = [none, none, some LineChange.Modified] := rfl

/-! ## Claim C7 -/

/-- C7: a pure removal — a `-` line whose immediately following line does not
start with `+` — records no classification and leaves the new-file cursor
unchanged (the whole loop state passes through untouched); consequently a
diff none of whose lines starts with `+` (in particular, one whose hunks
contain only removals) yields an empty change map. -/
theorem C7_theorem :
    (∀ (line next : List Char) (rest : List (List Char)) (cur : Nat) (changes : ChangeAssoc),
        line.head? = some '-' →
        (['-', '-', '-'] : List Char).isPrefixOf line = false →
        (['+'] : List Char).isPrefixOf next = false →
        parseLoop (line :: next :: rest) cur changes = parseLoop (next :: rest) cur changes)
    ∧ (∀ diff : List Char,
        (∀ l ∈ rustLines diff, l.head? ≠ some '+') →
        parse_unified_diff diff = []) := by
  constructor
  · exact parseLoop_pure_removal_step
  · intro diff h
    unfold parse_unified_diff
    rw [parseLoop_no_plus _ _ _ h]
    rfl

/-- C7 witness: the pure-removal step applied at the concrete line `"-old"`
followed by a context line, and a concrete removal-only diff parsing to the
empty map. -/
theorem C7_witness :
    parseLoop ["-old".data, " ctx".data] 3 [] = parseLoop [" ctx".data] 3 []
    ∧ parse_unified_diff "--- a/f\n@@ -1,2 +1,0 @@\n-a\n-b\n".data = [] := by
  constructor
  · exact C7_theorem.1 "-old".data " ctx".data [] 3 [] (by decide) (by decide) (by decide)
  · exact C7_theorem.2 _ (by decide)

/-! ## Claim C8 -/

/-- C8: for every input diff text the change map returned by
`parse_unified_diff` never contains the `Removed` variant — every `some`
entry is `Added` or `Modified`. -/
theorem C8_theorem (diff : List Char) :
    some LineChange.Removed ∉ parse_unified_diff diff := by
  intro hmem
  unfold parse_unified_diff finalize at hmem
  split at hmem
  · simp at hmem
  · obtain ⟨i, hi, hlook⟩ := List.mem_map.mp hmem
    exact lookupChange_good _ (parseLoop_good (rustLines diff) 1 [] (by intro p hp; cases hp))
      _ hlook

/-! ## Claims C4, C5, C10: line slicing and blank-line compaction -/

lemma joinInRange_past (r : LineRange) (ls : List (List Nat)) (n : Nat) (h : r.stop < n) :
    joinInRange r ls n = [] := by
  induction ls generalizing n with
  | nil => rfl
  | cons l ls ih =>
    rw [joinInRange, if_neg (by omega), ih _ (by omega)]
    rfl

lemma sliceGo_eq (r : LineRange) (bytes : List Nat) (line_no : Nat) (cur : List Nat) :
    sliceGo r bytes line_no cur = joinInRange r (splitLinesGo bytes cur) line_no := by
  induction bytes generalizing line_no cur with
  | nil =>
    rw [sliceGo, splitLinesGo]
    by_cases hc : cur = []
    · simp [hc, joinInRange]
    · simp [hc, joinInRange]
  | cons b rest ih =>
    rw [sliceGo, splitLinesGo]
    by_cases hb : b = 10
    · rw [if_pos hb, if_pos hb, joinInRange]
      by_cases hstop : r.stop < line_no + 1
      · rw [if_pos hstop, joinInRange_past r _ _ (by omega)]
      · rw [if_neg hstop, ih]
    · rw [if_neg hb, if_neg hb, ih]

lemma slice_eq_joinInRange (bytes : List Nat) (r : LineRange) :
    slice_bytes_by_line_range bytes r = joinInRange r (linesOf bytes) 1 := by
  unfold slice_bytes_by_line_range linesOf
  by_cases hb : bytes = []
  · simp [hb, splitLinesGo, joinInRange]
  · rw [if_neg hb, sliceGo_eq]

lemma wf_splitLinesGo (bytes : List Nat) (cur : List Nat) (hcur : 10 ∉ cur) :
    WFLines (splitLinesGo bytes cur) := by
  induction bytes generalizing cur with
  | nil =>
    rw [splitLinesGo]
    by_cases hc : cur = []
    · rw [if_pos hc]; exact WFLines.nil
    · rw [if_neg hc]; exact WFLines.last cur hc hcur
  | cons b rest ih =>
    rw [splitLinesGo]
    by_cases hb : b = 10
    · rw [if_pos hb]; exact WFLines.cons cur _ hcur (ih [] (by simp))
    · rw [if_neg hb]
      refine ih _ ?_
      simp only [List.mem_append, List.mem_singleton]
      rintro (h | h)
      · exact hcur h
      · exact hb h.symm

lemma wf_take (ls : List (List Nat)) (h : WFLines ls) (k : Nat) : WFLines (ls.take k) := by
  induction h generalizing k with
  | nil => simpa using WFLines.nil
  | last l hne hnl =>
    cases k with
    | zero => exact WFLines.nil
    | succ k => simpa using WFLines.last l hne hnl
  | cons body ls hb hls ih =>
    cases k with
    | zero => exact WFLines.nil
    | succ k =>
      rw [List.take_succ_cons]
      exact WFLines.cons body _ hb (ih k)

lemma splitLinesGo_no_nl (body : List Nat) (hb : 10 ∉ body) (cur : List Nat) :
    splitLinesGo body cur = if cur ++ body = [] then [] else [cur ++ body] := by
  induction body generalizing cur with
  | nil => simp [splitLinesGo]
  | cons b rest ih =>
    rw [splitLinesGo, if_neg (by simp_all [eq_comm])]
    rw [ih (by simp_all) (cur ++ [b])]
    simp

lemma splitLinesGo_append_nl (body : List Nat) (hb : 10 ∉ body) (rest : List Nat)
    (cur : List Nat) :
    splitLinesGo (body ++ 10 :: rest) cur = (cur ++ body ++ [10]) :: splitLinesGo rest [] := by
  induction body generalizing cur with
  | nil => simp [splitLinesGo]
  | cons b body2 ih =>
    rw [List.cons_append, splitLinesGo, if_neg (by simp_all [eq_comm])]
    rw [ih (by simp_all) (cur ++ [b])]
    simp

lemma linesOf_join (ls : List (List Nat)) (h : WFLines ls) :
    linesOf ls.flatten = ls := by
  induction h with
  | nil => rfl
  | last l hne hnl =>
    unfold linesOf
    rw [show ([l] : List (List Nat)).flatten = l by simp]
    rw [splitLinesGo_no_nl l hnl []]
    simp [hne]
  | cons body ls2 hb hwf ih =>
    unfold linesOf at ih ⊢
    rw [show ((body ++ [10]) :: ls2).flatten = body ++ 10 :: ls2.flatten by simp]
    rw [splitLinesGo_append_nl body hb _ []]
    simp [ih]

lemma joinInRange_start_one (e : Nat) (ls : List (List Nat)) (n : Nat) (hn : 1 ≤ n) :
    joinInRange ⟨1, e⟩ ls n = (ls.take (e + 1 - n)).flatten := by
  induction ls generalizing n with
  | nil => simp [joinInRange]
  | cons l ls ih =>
    rw [joinInRange]
    by_cases hne : n ≤ e
    · rw [if_pos ⟨hn, hne⟩, ih (n + 1) (by omega)]
      rw [show e + 1 - n = (e - n) + 1 by omega, show e + 1 - (n + 1) = e - n by omega]
      simp [List.take_succ_cons]
    · rw [if_neg (fun hcon => hne hcon.2)]
      rw [joinInRange_past _ _ _ (by simp only []; omega)]
      rw [show e + 1 - n = 0 by omega]
      simp

lemma slice_take_form (bytes : List Nat) (e : Nat) :
    slice_bytes_by_line_range bytes ⟨1, e⟩ = ((linesOf bytes).take e).flatten := by
  rw [slice_eq_joinInRange, joinInRange_start_one e _ 1 le_rfl]
  simp

lemma slice_idem_start_one (bytes : List Nat) (e : Nat) :
    slice_bytes_by_line_range (slice_bytes_by_line_range bytes ⟨1, e⟩) ⟨1, e⟩
      = slice_bytes_by_line_range bytes ⟨1, e⟩ := by
  rw [slice_take_form bytes e, slice_take_form]
  rw [linesOf_join _ (wf_take _ (show WFLines (linesOf bytes) by
    unfold linesOf; exact wf_splitLinesGo bytes [] (by simp)) e)]
  rw [List.take_take]
  simp

/-- C4 counterexample: slicing `"a\nb\n"` to lines 2..2 gives `"b\n"`, but
re-slicing that result with the same range 2..2 gives `""` (the sliced buffer
has only one line, renumbered from 1) — so re-slicing with the same range is
not idempotent, even though the range satisfies `start ≤ stop`. -/
theorem C4_counterexample :
    (2 ≤ 2)
    ∧ slice_bytes_by_line_range
          (slice_bytes_by_line_range [97, 10, 98, 10] ⟨2, 2⟩) ⟨2, 2⟩
        ≠ slice_bytes_by_line_range [97, 10, 98, 10] ⟨2, 2⟩ := by decide

/-- C4 (amended): for every byte buffer `b` and range `r` with
`r.start ≤ r.stop`, `slice_bytes_by_line_range b r` is exactly the
concatenation of the lines of `b` whose 1-based numbers lie in the range — so
it contains only bytes belonging to lines `r.start ..= r.stop` — and
re-slicing the already-sliced result with the same range is idempotent when
`r.start = 1` (for `r.start > 1` the slice renumbers the surviving lines from
1, so idempotence fails, as the counterexample shows). -/
theorem C4_theorem (b : List Nat) (r : LineRange) (h : r.start ≤ r.stop) :
    slice_bytes_by_line_range b r = joinInRange r (linesOf b) 1
    ∧ (r.start = 1 →
        slice_bytes_by_line_range (slice_bytes_by_line_range b r) r
          = slice_bytes_by_line_range b r) := by
  refine ⟨slice_eq_joinInRange b r, fun h1 => ?_⟩
  obtain ⟨s, e⟩ := r
  simp only at h1
  subst h1
  exact slice_idem_start_one b e

/-- C4 witness: the amended theorem applied to the concrete buffer
`"a\nb\nc"` and the concrete range 1..2. -/
theorem C4_witness :
    ((1 : Nat) ≤ 2)
    ∧ slice_bytes_by_line_range [97, 10, 98, 10, 99] ⟨1, 2⟩
        = joinInRange ⟨1, 2⟩ (linesOf [97, 10, 98, 10, 99]) 1
    ∧ slice_bytes_by_line_range
          (slice_bytes_by_line_range [97, 10, 98, 10, 99] ⟨1, 2⟩) ⟨1, 2⟩
        = slice_bytes_by_line_range [97, 10, 98, 10, 99] ⟨1, 2⟩ := by
  have h := C4_theorem [97, 10, 98, 10, 99] ⟨1, 2⟩ (by decide)
  exact ⟨by decide, h.1, h.2 rfl⟩

lemma isBlankLine_concat_nl (cur : List Nat) :
    isBlankLine (cur ++ [10]) = isBlankContent cur := by
  unfold isBlankLine
  rw [List.getLast?_concat, if_pos rfl, List.dropLast_concat]

lemma isBlankLine_no_nl (cur : List Nat) (h : 10 ∉ cur) :
    isBlankLine cur = isBlankContent cur := by
  unfold isBlankLine
  rw [if_neg]
  intro hl
  obtain ⟨hne, hx⟩ := List.mem_getLast?_eq_getLast (Option.mem_def.mpr hl)
  exact h (hx ▸ List.getLast_mem hne)

lemma squeezeGo_eq (limit : Nat) (bytes : List Nat) (bc : Nat) (cur : List Nat)
    (hcur : 10 ∉ cur) :
    squeezeGo limit bytes bc cur = (squeezeLinesL limit (splitLinesGo bytes cur) bc).flatten := by
  induction bytes generalizing bc cur with
  | nil =>
    rw [squeezeGo, splitLinesGo]
    by_cases hc : cur = []
    · simp [hc, squeezeLinesL]
    · rw [if_neg hc, if_neg hc]
      rw [squeezeLinesL, isBlankLine_no_nl cur hcur]
      by_cases hblank : isBlankContent cur
      · rw [if_pos hblank, if_pos hblank]
        by_cases hle : bc + 1 ≤ limit
        · simp [hle, squeezeLinesL]
        · simp [hle, squeezeLinesL]
      · rw [if_neg hblank, if_neg hblank]
        simp [squeezeLinesL]
  | cons b rest ih =>
    rw [squeezeGo, splitLinesGo]
    by_cases hb : b = 10
    · rw [if_pos hb, if_pos hb]
      rw [squeezeLinesL, isBlankLine_concat_nl]
      by_cases hblank : isBlankContent cur
      · rw [if_pos hblank, if_pos hblank]
        by_cases hle : bc + 1 ≤ limit
        · rw [if_pos hle, if_pos hle]
          rw [ih (bc + 1) [] (by simp)]
          simp
        · rw [if_neg hle, if_neg hle]
          rw [ih (bc + 1) [] (by simp)]
          simp
      · rw [if_neg hblank, if_neg hblank]
        rw [ih 0 [] (by simp)]
        simp
    · rw [if_neg hb, if_neg hb]
      refine ih bc _ ?_
      simp only [List.mem_append, List.mem_singleton]
      rintro (h | h)
      · exact hcur h
      · exact hb h.symm

lemma squeeze_eq_lines (bytes : List Nat) (limit : Nat) :
    squeeze_blank_lines_bytes bytes limit
      = (squeezeLinesL limit (linesOf bytes) 0).flatten := by
  unfold squeeze_blank_lines_bytes linesOf
  by_cases hb : bytes = []
  · simp [hb, splitLinesGo, squeezeLinesL]
  · rw [if_neg hb, squeezeGo_eq limit bytes 0 [] (by simp)]

lemma wf_squeezeLinesL (limit : Nat) (ls : List (List Nat)) (h : WFLines ls) (bc : Nat) :
    WFLines (squeezeLinesL limit ls bc) := by
  induction h generalizing bc with
  | nil => exact WFLines.nil
  | last l hne hnl =>
    rw [squeezeLinesL]
    by_cases hb : isBlankLine l
    · rw [if_pos hb]
      by_cases hle : bc + 1 ≤ limit
      · simpa [hle, squeezeLinesL] using WFLines.last l hne hnl
      · simpa [hle, squeezeLinesL] using WFLines.nil
    · rw [if_neg hb]
      simpa [squeezeLinesL] using WFLines.last l hne hnl
  | cons body ls2 hbody hwf ih =>
    rw [squeezeLinesL]
    by_cases hb : isBlankLine (body ++ [10])
    · rw [if_pos hb]
      by_cases hle : bc + 1 ≤ limit
      · rw [if_pos hle]
        simpa using WFLines.cons body _ hbody (ih (bc + 1))
      · rw [if_neg hle]
        simpa using ih (bc + 1)
    · rw [if_neg hb]
      exact WFLines.cons body _ hbody (ih 0)

lemma blankRuns_squeezeLinesL (limit : Nat) (ls : List (List Nat)) (bc : Nat) :
    blankRunsAtMost limit (squeezeLinesL limit ls bc) (min bc limit) = true := by
  induction ls generalizing bc with
  | nil => rfl
  | cons l ls ih =>
    rw [squeezeLinesL]
    by_cases hb : isBlankLine l
    · rw [if_pos hb]
      by_cases hle : bc + 1 ≤ limit
      · rw [if_pos hle]
        simp only [List.singleton_append]
        rw [blankRunsAtMost, if_pos hb]
        rw [show min bc limit = bc by omega]
        have h2 := ih (bc + 1)
        rw [show min (bc + 1) limit = bc + 1 by omega] at h2
        simp [hle, h2]
      · rw [if_neg hle]
        simp only [List.nil_append]
        have h2 := ih (bc + 1)
        rw [show min (bc + 1) limit = limit by omega] at h2
        rw [show min bc limit = limit by omega]
        exact h2
    · rw [if_neg hb]
      rw [blankRunsAtMost, if_neg hb]
      have h2 := ih 0
      rw [show min 0 limit = 0 by omega] at h2
      exact h2

lemma squeezeLinesL_idem (limit : Nat) (ls : List (List Nat)) (bc : Nat) :
    squeezeLinesL limit (squeezeLinesL limit ls bc) (min bc limit)
      = squeezeLinesL limit ls bc := by
  induction ls generalizing bc with
  | nil => rfl
  | cons l ls ih =>
    rw [squeezeLinesL]
    by_cases hb : isBlankLine l
    · by_cases hle : bc + 1 ≤ limit
      · rw [if_pos hb, if_pos hle]
        simp only [List.singleton_append]
        rw [squeezeLinesL, if_pos hb, if_pos (by omega : min bc limit + 1 ≤ limit)]
        have h2 := ih (bc + 1)
        rw [show min (bc + 1) limit = bc + 1 by omega] at h2
        rw [show min bc limit + 1 = bc + 1 by omega, h2]
        simp
      · rw [if_pos hb, if_neg hle]
        simp only [List.nil_append]
        have h2 := ih (bc + 1)
        rw [show min (bc + 1) limit = limit by omega] at h2
        rw [show min bc limit = limit by omega]
        exact h2
    · rw [if_neg hb]
      rw [squeezeLinesL, if_neg hb]
      have h2 := ih 0
      rw [show min 0 limit = 0 by omega] at h2
      rw [h2]

lemma squeezeLinesL_filter (limit : Nat) (ls : List (List Nat)) (bc : Nat) :
    (squeezeLinesL limit ls bc).filter (fun l => !(isBlankLine l))
      = ls.filter (fun l => !(isBlankLine l)) := by
  induction ls generalizing bc with
  | nil => rfl
  | cons l ls ih =>
    rw [squeezeLinesL]
    by_cases hb : isBlankLine l
    · by_cases hle : bc + 1 ≤ limit
      · rw [if_pos hb, if_pos hle]
        simp [List.filter_cons, hb, ih (bc + 1)]
      · rw [if_pos hb, if_neg hle]
        simp [List.filter_cons, hb, ih (bc + 1)]
    · rw [if_neg hb]
      simp [List.filter_cons, hb, ih 0]

lemma squeezeLinesL_sublist (limit : Nat) (ls : List (List Nat)) (bc : Nat) :
    (squeezeLinesL limit ls bc).Sublist ls := by
  induction ls generalizing bc with
  | nil => simp [squeezeLinesL]
  | cons l ls ih =>
    rw [squeezeLinesL]
    by_cases hb : isBlankLine l
    · by_cases hle : bc + 1 ≤ limit
      · rw [if_pos hb, if_pos hle]
        simpa using (ih (bc + 1)).cons₂ l
      · rw [if_pos hb, if_neg hle]
        simpa using (ih (bc + 1)).cons l
    · rw [if_neg hb]
      exact (ih 0).cons₂ l

lemma linesOf_squeeze (bytes : List Nat) (limit : Nat) :
    linesOf (squeeze_blank_lines_bytes bytes limit)
      = squeezeLinesL limit (linesOf bytes) 0 := by
  rw [squeeze_eq_lines]
  exact linesOf_join _ (wf_squeezeLinesL limit _ (show WFLines (linesOf bytes) by
    unfold linesOf; exact wf_splitLinesGo bytes [] (by simp)) 0)

/-- C5: for every byte buffer `b` and `limit` (a `usize`, hence `≥ 0`),
`squeeze_blank_lines_bytes b limit` contains no run of more than `limit`
consecutive blank lines (CRLF-aware blankness), and the operation is
idempotent: compacting a compacted buffer changes nothing. -/
theorem C5_theorem (b : List Nat) (limit : Nat) :
    blankRunsAtMost limit (linesOf (squeeze_blank_lines_bytes b limit)) 0 = true
    ∧ squeeze_blank_lines_bytes (squeeze_blank_lines_bytes b limit) limit
        = squeeze_blank_lines_bytes b limit := by
  constructor
  · rw [linesOf_squeeze]
    have h2 := blankRuns_squeezeLinesL limit (linesOf b) 0
    rwa [show min 0 limit = 0 by omega] at h2
  · rw [squeeze_eq_lines (squeeze_blank_lines_bytes b limit) limit, linesOf_squeeze]
    have h2 := squeezeLinesL_idem limit (linesOf b) 0
    rw [show min 0 limit = 0 by omega] at h2
    rw [h2, ← squeeze_eq_lines]

/-- C10: `squeeze_blank_lines_bytes` preserves every non-blank line
byte-for-byte (terminators included) and in order — the non-blank lines of
the output are exactly the non-blank lines of the input — and the output's
lines are a sublist of the input's lines, so only blank lines are ever
removed. -/
theorem C10_theorem (b : List Nat) (limit : Nat) :
    (linesOf (squeeze_blank_lines_bytes b limit)).filter (fun l => !(isBlankLine l))
      = (linesOf b).filter (fun l => !(isBlankLine l))
    ∧ (linesOf (squeeze_blank_lines_bytes b limit)).Sublist (linesOf b) := by
  rw [linesOf_squeeze]
  exact ⟨squeezeLinesL_filter limit (linesOf b) 0, squeezeLinesL_sublist limit (linesOf b) 0⟩

/-! ## Claim C6: the unprintable-character table -/

/-- C6: `show_unprintable` maps characters per the published table —
`"hello\tworld\n"` becomes `"hello→world␊\n"` (Unicode) and
`"hello^Iworld$\n"` (caret), `"hello world"` becomes `"hello·world"`,
`"start\x01\x02\x03end"` becomes `"start␁␂␃end"` (Unicode); every C0 code in
0x01-0x1F that is not otherwise special-cased maps to the control picture at
0x2400 + c (Unicode) and to `^` followed by the character c + 0x40 (caret);
the newline marker is inserted before the real `\n`, which is preserved; and
every character outside the table passes through unchanged. -/
theorem C6_theorem :
    show_unprintable "hello\tworld\n".data CharStyle.Unicode = "hello→world␊\n".data
    ∧ show_unprintable "hello\tworld\n".data CharStyle.Caret = "hello^Iworld$\n".data
    ∧ show_unprintable "hello world".data CharStyle.Unicode = "hello·world".data
    ∧ show_unprintable "start\x01\x02\x03end".data CharStyle.Unicode = "start␁␂␃end".data
    ∧ (∀ c : Char, 1 ≤ c.toNat → c.toNat ≤ 0x1F →
        c ≠ '\t' → c ≠ '\n' → c ≠ '\r' → c ≠ '\x1b' →
        showChar c CharStyle.Unicode = [Char.ofNat (0x2400 + c.toNat)]
        ∧ showChar c CharStyle.Caret = ['^', Char.ofNat (c.toNat + 0x40)])
    ∧ (∀ style : CharStyle, showChar '\n' style
        = [(if style = CharStyle.Unicode then '␊' else '$'), '\n'])
    ∧ (∀ (c : Char) (style : CharStyle),
        c ≠ ' ' → ¬ c.toNat ≤ 0x1F → c.toNat ≠ 0x7F →
        c ≠ Char.ofNat 0x200B → c ≠ Char.ofNat 0x200C → c ≠ Char.ofNat 0x200D →
        c ≠ Char.ofNat 0xFEFF →
        show_unprintable [c] style = [c]) := by
  refine ⟨by decide, by decide, by decide, by decide, ?_, ?_, ?_⟩
  · intro c h1 h2 htab hnl hcr hesc
    have hsp : c ≠ ' ' := by rintro rfl; exact absurd h2 (by decide)
    have hnul : c ≠ '\x00' := by rintro rfl; exact absurd h1 (by decide)
    have hctl : isControl c = true ∧ c.toNat ≤ 0x1F := by
      refine ⟨?_, h2⟩
      simp only [isControl, Bool.or_eq_true, decide_eq_true_eq]
      left; omega
    constructor
    · rw [showChar, if_neg hsp, if_neg htab, if_neg hnl, if_neg hcr, if_neg hesc,
        if_neg hnul, if_pos hctl, if_pos rfl]
      rw [Nat.add_comm]
    · rw [showChar, if_neg hsp, if_neg htab, if_neg hnl, if_neg hcr, if_neg hesc,
        if_neg hnul, if_pos hctl, if_neg (by decide : ¬(CharStyle.Caret = CharStyle.Unicode))]
  · intro style
    cases style <;> decide
  · intro c style hsp hn hdel hzwsp hzwnj hzwj hbom
    have htab : c ≠ '\t' := by rintro rfl; exact hn (by decide)
    have hnl : c ≠ '\n' := by rintro rfl; exact hn (by decide)
    have hcr : c ≠ '\r' := by rintro rfl; exact hn (by decide)
    have hesc : c ≠ '\x1b' := by rintro rfl; exact hn (by decide)
    have hnul : c ≠ '\x00' := by rintro rfl; exact hn (by decide)
    have hdel2 : c ≠ '\x7f' := by rintro rfl; exact hdel (by decide)
    have hctl : ¬(isControl c = true ∧ c.toNat ≤ 0x1F) := fun h => hn h.2
    show showChar c style ++ [] = [c]
    rw [showChar, if_neg hsp, if_neg htab, if_neg hnl, if_neg hcr, if_neg hesc,
      if_neg hnul, if_neg hctl, if_neg hdel2, if_neg hzwsp, if_neg hzwnj, if_neg hzwj,
      if_neg hbom, List.append_nil]

/-- C6 witness: the generic C0 clause applied at `\x01` in Unicode mode, and
the pass-through clause applied at `x` in caret mode. -/
theorem C6_witness :
    showChar (Char.ofNat 0x01) CharStyle.Unicode = [Char.ofNat 0x2401]
    ∧ show_unprintable ['x'] CharStyle.Caret = ['x'] := by
  constructor
  · have h := (C6_theorem.2.2.2.2.1 (Char.ofNat 0x01) (by decide) (by decide)
      (by decide) (by decide) (by decide) (by decide)).1
    simpa using h
  · exact C6_theorem.2.2.2.2.2.2 'x' CharStyle.Caret (by decide) (by decide) (by decide)
      (by decide) (by decide) (by decide) (by decide)

/-! ## Claims C2, C3, C9: the streaming compositor -/

/-- C2 (amended): when the streaming styled path fails with a highlight error
after having flushed `f` to the sink, the flushed output is not rolled back —
`f` is a prefix of the final output — and the fallback then renders the
**entire** text again (`fallbackRender` of the whole text follows `f`), not
only the remaining unflushed content. -/
theorem C2_theorem (env : StreamEnv) (lang : Unit) (cfg : DecorationConfig)
    (start : Nat) (git : List (Option LineChange))
    (hres : Except Unit (List (Except Unit HighlightEvent)))
    (e : Unit) (f : List Char)
    (herr : write_highlighted_text_stream env cfg start git hres = (Except.error e, f)) :
    write_rendered_text env (some lang) cfg start git hres
      = f ++ fallbackRender env cfg start
    ∧ f <+: write_rendered_text env (some lang) cfg start git hres := by
  have h1 : write_rendered_text env (some lang) cfg start git hres
      = f ++ fallbackRender env cfg start := by
    unfold write_rendered_text
    rw [herr]
  exact ⟨h1, h1 ▸ List.prefix_append f _⟩

/-- C2 counterexample: on the two-line text `"a\nb"` whose highlighter
yields the first line and then errors, `"a\n"` is flushed before the failure,
and the final output is `"a\na\nb"` — the whole text re-rendered after the
flushed part — not the `"a\nb"` that a fallback of only the remaining
unflushed content would give. -/
theorem C2_counterexample :
    write_rendered_text (sampleEnv "a\nb".data) (some ()) ⟨false, false⟩ 1 []
        (Except.ok [Except.ok (HighlightEvent.Source 0 2), Except.error ()])
      = "a\na\nb".data
    ∧ (write_highlight_iter_plain (sampleEnv "a\nb".data)
        [Except.ok (HighlightEvent.Source 0 2), Except.error ()]).2 = "a\n".data
    ∧ ("a\na\nb".data : List Char) ≠ "a\n".data ++ "b".data :=
  ⟨rfl, rfl, by decide⟩

/-- C2 witness: the amended theorem applied to a concrete decorated-path
failure, whose flushed part is the rendered first line `"1 │ a\n"`. -/
theorem C2_witness :
    write_rendered_text (sampleEnv "a\nb".data) (some ()) ⟨true, false⟩ 1 []
        (Except.ok [Except.ok (HighlightEvent.Source 0 2), Except.error ()])
      = "1 │ a\n".data ++ fallbackRender (sampleEnv "a\nb".data) ⟨true, false⟩ 1 :=
  (C2_theorem (sampleEnv "a\nb".data) () ⟨true, false⟩ 1 []
    (Except.ok [Except.ok (HighlightEvent.Source 0 2), Except.error ()]) () "1 │ a\n".data
    (by rfl)).1

/-- C9: a `HighlightEnd` event maps the scope stack through `dropLast` —
total, never a crash — in both the plain and the decorated event loops, and
on an empty stack it is a complete no-op: the state (stack included) is
unchanged and the loop continues with the remaining events, for every event
stream, including malformed ones with more `HighlightEnd` than
`HighlightStart` events. -/
theorem C9_theorem :
    (∀ (env : StreamEnv) (rest : List (Except Unit HighlightEvent)) (st : PlainState),
        plainLoop env (Except.ok HighlightEvent.HighlightEnd :: rest) st
          = plainLoop env rest { st with style_stack := st.style_stack.dropLast })
    ∧ (∀ (env : StreamEnv) (rest : List (Except Unit HighlightEvent)) (st : PlainState),
        st.style_stack = [] →
        plainLoop env (Except.ok HighlightEvent.HighlightEnd :: rest) st
          = plainLoop env rest st)
    ∧ (∀ (env : StreamEnv) (cfg : DecorationConfig) (git : List (Option LineChange))
          (width : Nat) (rest : List (Except Unit HighlightEvent)) (st : DecorState),
        decorLoop env cfg git width (Except.ok HighlightEvent.HighlightEnd :: rest) st
          = decorLoop env cfg git width rest { st with style_stack := st.style_stack.dropLast })
    ∧ (∀ (env : StreamEnv) (cfg : DecorationConfig) (git : List (Option LineChange))
          (width : Nat) (rest : List (Except Unit HighlightEvent)) (st : DecorState),
        st.style_stack = [] →
        decorLoop env cfg git width (Except.ok HighlightEvent.HighlightEnd :: rest) st
          = decorLoop env cfg git width rest st) := by
  refine ⟨fun env rest st => rfl, ?_, fun _ _ _ _ _ _ => rfl, ?_⟩
  · intro env rest st h
    cases st with
    | mk ss lhc fvo out =>
      simp only at h
      subst h
      rfl
  · intro env cfg git width rest st h
    cases st with
    | mk ss lno lidx lhc lc fvo out =>
      simp only at h
      subst h
      rfl

/-- C9 witness: both empty-stack no-op clauses applied at a concrete state
whose stack is empty. -/
theorem C9_witness :
    plainLoop (sampleEnv "a".data) [Except.ok HighlightEvent.HighlightEnd]
        ⟨[], false, false, ⟨[], []⟩⟩
      = plainLoop (sampleEnv "a".data) [] ⟨[], false, false, ⟨[], []⟩⟩
    ∧ decorLoop (sampleEnv "a".data) ⟨true, true⟩ [] 1
        [Except.ok HighlightEvent.HighlightEnd] ⟨[], 1, 0, false, [], false, ⟨[], []⟩⟩
      = decorLoop (sampleEnv "a".data) ⟨true, true⟩ [] 1 []
        ⟨[], 1, 0, false, [], false, ⟨[], []⟩⟩ :=
  ⟨C9_theorem.2.1 _ _ _ rfl, C9_theorem.2.2.2 _ _ _ _ _ _ rfl⟩

/-- C3 counterexample: a decorated streaming run with `show_changes = true`
but an empty change map renders the line `"x"` with no marker column at all
(the effective config drops `show_changes`, and with `show_numbers = false`
every decoration disappears), where the claimed always-present marker column
would render `"   │ x"`. -/
theorem C3_counterexample :
    write_highlight_iter_with_decorations (sampleEnv "x".data) ⟨false, true⟩ 1 []
        [Except.ok (HighlightEvent.Source 0 1)]
      = (Except.ok (), "x".data)
    ∧ render_decorated_line [("x".data, none)] 1 ⟨false, true⟩ none plainRenderer emptyTheme 1
      = "   │ x".data
    ∧ ("x".data : List Char) ≠ "   │ x".data :=
  ⟨rfl, rfl, by decide⟩

/-- C3 (amended): the decorated streaming path shows the marker column iff
`show_changes` **and** the change map contains at least one change (the
effective config's `show_changes` is their conjunction); at the composer
level, a line rendered with `show_changes = true` always carries the
one-character marker — `+`/`~`/`-`/blank per `markerChar`, styled per
`markerStyle`, after the dim space — and a line rendered with
`show_changes = false` carries no marker column. -/
theorem C3_theorem :
    (∀ (cfg : DecorationConfig) (git : List (Option LineChange)),
        (effectiveConfig cfg git).show_changes
          = (cfg.show_changes && git.any (fun c => c.isSome)))
    ∧ (∀ (r : TerminalRenderer) (theme : ResolvedTheme)
          (content : List (List Char × Option String)) (line_no : Nat)
          (change : Option LineChange) (width : Nat) (sn : Bool),
        render_decorated_line content line_no ⟨sn, true⟩ change r theme width
          = (if sn then
                r.styled (r.escape (padLeft (natLit line_no) width))
                  (get_dim_style_or_create theme)
              else [])
            ++ (r.styled (r.escape [' ']) (get_dim_style_or_create theme)
                ++ r.styled (r.escape [markerChar change]) (markerStyle theme change))
            ++ r.styled (r.escape [' ']) (get_dim_style_or_create theme)
            ++ r.styled (r.escape "│ ".data) (get_dim_style_or_create theme)
            ++ contentSeg r theme content)
    ∧ (∀ (r : TerminalRenderer) (theme : ResolvedTheme)
          (content : List (List Char × Option String)) (line_no : Nat)
          (change : Option LineChange) (width : Nat) (sn : Bool),
        render_decorated_line content line_no ⟨sn, false⟩ change r theme width
          = (if sn then
                r.styled (r.escape (padLeft (natLit line_no) width))
                  (get_dim_style_or_create theme)
                ++ r.styled (r.escape [' ']) (get_dim_style_or_create theme)
                ++ r.styled (r.escape "│ ".data) (get_dim_style_or_create theme)
              else [])
            ++ contentSeg r theme content) := by
  refine ⟨?_, ?_, ?_⟩
  · intro cfg git
    unfold effectiveConfig
    cases hany : git.any (fun c => c.isSome) <;> simp [hany]
  · intro r theme content line_no change width sn
    cases change with
    | none =>
      cases sn <;>
        simp [render_decorated_line, markerChar, markerStyle, contentSeg,
          DecorationConfig.has_decorations]
    | some c =>
      cases c <;> cases sn <;>
        simp [render_decorated_line, markerChar, markerStyle, contentSeg,
          DecorationConfig.has_decorations]
  · intro r theme content line_no change width sn
    cases sn <;>
      simp [render_decorated_line, contentSeg, DecorationConfig.has_decorations]

end Scat
